import Mathlib

/-!
Shallow embedding of the autotrend pipeline (src/main.py).

Text is modelled as `List Char`.  External provider calls (pytrends,
Wikipedia, Guardian, NYT, Pexels, Unsplash, Wikimedia) are modelled by
outcome values passed as arguments: a provider either raised an exception,
was unconfigured, returned nothing usable, or returned a payload.  The
record store is modelled, per the spec's own interface (a key→bytes store
supporting only `exists` and `write`), as the list of identifiers (slugs)
already present; record bytes are not needed by any claim.
-/

/-- Python `str` whitespace as used by `str.strip()`:
space, tab, newline, carriage return, vertical tab, form feed. -/
def isWs (c : Char) : Bool :=
  c == ' ' || c == '\t' || c == '\n' || c == '\r' || c == '\x0b' || c == '\x0c'

/-- The ASCII case mapping pairs of `str.lower()`. -/
def lowerTable : List (Char × Char) :=
  [('A','a'), ('B','b'), ('C','c'), ('D','d'), ('E','e'), ('F','f'), ('G','g'),
   ('H','h'), ('I','i'), ('J','j'), ('K','k'), ('L','l'), ('M','m'), ('N','n'),
   ('O','o'), ('P','p'), ('Q','q'), ('R','r'), ('S','s'), ('T','t'), ('U','u'),
   ('V','v'), ('W','w'), ('X','x'), ('Y','y'), ('Z','z')]

/-- Python `str.lower()` restricted to ASCII letters (the only case mapping
exercised by the pipeline's ASCII-keyed comparisons): an uppercase letter
maps to its lowercase pair, everything else is unchanged. -/
def lowerChar (c : Char) : Char :=
  match lowerTable.find? (fun p => p.1 == c) with
  | some p => p.2
  | none => c

/-- Python `s.lower()` on a whole string. -/
def lowerL (l : List Char) : List Char := l.map lowerChar

/-- Python `s.strip()`: drop leading and trailing whitespace. -/
def pyStrip (l : List Char) : List Char :=
  ((l.dropWhile isWs).reverse.dropWhile isWs).reverse

/-- Characters kept by the identifier normalizer (ASCII alphanumerics). -/
def isSafe (c : Char) : Bool :=
  (decide ('a' ≤ c) && decide (c ≤ 'z')) ||
  (decide ('A' ≤ c) && decide (c ≤ 'Z')) ||
  (decide ('0' ≤ c) && decide (c ≤ '9'))

/-- String literal to character list. -/
def str (s : String) : List Char := s.data

/-! ## Trend Discovery (`fetch_trending_terms`, main.py lines 26-46) -/

/-- Outcome of `pytrends.trending_searches(pn=region)` for one region:
an exception (caught, region skipped) or a list of term strings. -/
inductive RegionOutcome where
  | ex : RegionOutcome
  | ok : List (List Char) → RegionOutcome

/-- The `keywords` list built by the per-region loop of
`fetch_trending_terms`: each returned term is `strip()`-ed and appended;
a failing region is skipped. -/
def gatherKeywords : List RegionOutcome → List (List Char)
  | [] => []
  | RegionOutcome.ex :: rs => gatherKeywords rs
  | RegionOutcome.ok ts :: rs => ts.map pyStrip ++ gatherKeywords rs

/-- The `seen`/`uniq` loop of `fetch_trending_terms`: keep a keyword when
its lowercase form has not been seen, preserving first-occurrence order
with the original casing. -/
def dedupCI : List (List Char) → List (List Char) → List (List Char)
  | [], _ => []
  | k :: ks, seen =>
    if lowerL k ∈ seen then dedupCI ks seen
    else k :: dedupCI ks (lowerL k :: seen)

/-- `fetch_trending_terms(regions)`: gather stripped keywords across regions
in region order, deduplicate case-insensitively, truncate to 20. -/
def fetch_trending_terms (rs : List RegionOutcome) : List (List Char) :=
  (dedupCI (gatherKeywords rs) []).take 20

/-- Flattening exactly as claim C5 words it: the per-region term lists
concatenated verbatim in region order (no per-term strip). -/
def flattenOk : List RegionOutcome → List (List Char)
  | [] => []
  | RegionOutcome.ex :: rs => flattenOk rs
  | RegionOutcome.ok ts :: rs => ts ++ flattenOk rs

/-- Trend discovery as claim C5 states it: flatten verbatim, deduplicate
case-insensitively keeping first occurrence, truncate to 20. -/
def discoverClaim (rs : List RegionOutcome) : List (List Char) :=
  (dedupCI (flattenOk rs) []).take 20

/-! ## Subtopic Expansion (`fetch_related_queries`, main.py lines 48-74) -/

/-- Outcome of the related-query provider for a term: library unavailable
(`TrendReq is None`), an exception inside the `try`, or a payload holding
the optional `rising` and `top` query lists. -/
inductive RelatedOutcome where
  | unavailable : RelatedOutcome
  | ex : RelatedOutcome
  | ok : Option (List (List Char)) → Option (List (List Char)) → RelatedOutcome

/-- `df["query"].tolist()[:10]` for one of the `rising`/`top` frames;
a missing frame contributes nothing. -/
def collectRQ : Option (List (List Char)) → List (List Char)
  | none => []
  | some l => l.take 10

/-- The dedup loop of `fetch_related_queries`: keep `q.strip()` when its
stripped lowercase form is non-empty, unseen, and differs from the
lowercased seed term. -/
def dedupRQ (termLower : List Char) : List (List Char) → List (List Char) → List (List Char)
  | [], _ => []
  | q :: qs, seen =>
    if lowerL (pyStrip q) ≠ [] ∧ lowerL (pyStrip q) ∉ seen ∧
        lowerL (pyStrip q) ≠ termLower then
      pyStrip q :: dedupRQ termLower qs (lowerL (pyStrip q) :: seen)
    else dedupRQ termLower qs seen

/-- `fetch_related_queries(term)`.  On unavailability of the library it
returns `[]`; on an exception it returns the overview/key facts/FAQs/
timeline angles; otherwise it collects rising then top queries, falls back
to the explained/pros and cons/vs alternatives/latest news angles when that
collection is empty, deduplicates, and truncates to 8. -/
def fetch_related_queries (term : List Char) (o : RelatedOutcome) : List (List Char) :=
  match o with
  | RelatedOutcome.unavailable => []
  | RelatedOutcome.ex =>
    [term ++ str " overview", term ++ str " key facts",
     term ++ str " FAQs", term ++ str " timeline"]
  | RelatedOutcome.ok rising top =>
    let related := collectRQ rising ++ collectRQ top
    let related := if related = [] then
        [term ++ str " explained", term ++ str " pros and cons",
         term ++ str " vs alternatives", term ++ str " latest news"]
      else related
    (dedupRQ (lowerL term) related []).take 8

/-! ## Source Aggregation (the dedup block of `main`, main.py lines 244-256) -/

/-- A provider source contribution: `{title, url}` dictionaries where
either field may be absent or empty. -/
structure Src where
  title : Option (List Char)
  url : Option (List Char)
deriving DecidableEq

/-- `s.get("url")` followed by Python truthiness: `none` when the field is
missing/None or the empty string, else the url. -/
def urlKey (s : Src) : Option (List Char) :=
  match s.url with
  | none => none
  | some u => if u = [] then none else some u

/-- The `seen`/`uniq` loop of `main`: keep an entry when its url is truthy
and unseen; entries without a truthy url are dropped. -/
def dedupURL : List Src → List (List Char) → List Src
  | [], _ => []
  | s :: ss, seen =>
    match urlKey s with
    | none => dedupURL ss seen
    | some u => if u ∈ seen then dedupURL ss seen else s :: dedupURL ss (u :: seen)

/-- Aggregation applied in `main` to the concatenated provider
contributions: dedup by url then `[:5]`. -/
def aggregate (srcs : List Src) : List Src := (dedupURL srcs []).take 5

/-! ## Image Resolution (`pick_image`, main.py lines 135-187) -/

/-- An image payload `{url, credit_text, credit_url}`. -/
structure ImageResult where
  url : List Char
  credit_text : List Char
  credit_url : Option (List Char)
deriving DecidableEq

/-- Outcome of one image provider attempt: key not configured, exception
raised (caught), empty/malformed result set, or a well-formed non-empty
result. -/
inductive ProvOutcome where
  | unconfigured : ProvOutcome
  | ex : ProvOutcome
  | empty : ProvOutcome
  | ok : ImageResult → ProvOutcome
deriving DecidableEq

/-- Whether a provider outcome is a usable result. -/
def isOkProv : ProvOutcome → Bool
  | ProvOutcome.ok _ => true
  | _ => false

/-- `pick_image(term)`: Pexels, then Unsplash, then (when
`ALLOW_WIKIMEDIA_IMAGES`) Wikimedia; the first usable result is returned,
every failure mode falls through, and exhaustion yields `None`. -/
def pick_image (px un : ProvOutcome) (allowWikimedia : Bool) (wk : ProvOutcome) :
    Option ImageResult :=
  match px with
  | ProvOutcome.ok r => some r
  | _ =>
    match un with
    | ProvOutcome.ok r => some r
    | _ =>
      if allowWikimedia then
        match wk with
        | ProvOutcome.ok r => some r
        | _ => none
      else none

/-! ## Publication (`make_article`, main.py lines 189-228) -/

/-- Title derivation of `make_article`: the subtopic verbatim unless it
case-insensitively equals the topic, in which case the generic title. -/
def articleTitle (topic subtopic : List Char) : List Char :=
  if lowerL subtopic ≠ lowerL topic then subtopic
  else topic ++ str ": What you need to know"

/-- Modelled from the spec: the `slugify` library used by `make_article` is
not part of this repository's sources.  Per the spec's contract for the
Identifier Normalizer it lowercases, keeps a safe (alphanumeric) character
set, and replaces whitespace/punctuation runs with a single separator.
`slugTok` splits the text into lowercased maximal safe-character tokens,
carrying the current token reversed in `acc`. -/
def slugTok : List Char → List Char → List (List Char)
  | [], acc => if acc = [] then [] else [acc.reverse]
  | c :: cs, acc =>
    if isSafe c then slugTok cs (lowerChar c :: acc)
    else if acc = [] then slugTok cs [] else acc.reverse :: slugTok cs []

/-- Modelled from the spec: the slug before truncation — the safe tokens
joined by the `-` separator. -/
def slugifyCore (t : List Char) : List Char := List.intercalate ['-'] (slugTok t [])

/-- The identifier computed by `make_article`: `slugify(title)[:80]`. -/
def normalizeId (t : List Char) : List Char := (slugifyCore t).take 80

/-- `make_article(topic, subtopic, sources, image, min_words)` against a
record store holding the identifiers already present: derive the title and
slug, return `None` and leave the store unchanged when the slug's location
exists, otherwise write (add the slug) and return the record location.
Record bytes (header/body text) are not modelled; no claim depends on
them. -/
def make_article (topic subtopic : List Char) (sources : List Src)
    (image : Option ImageResult) (minWords : Nat) (store : List (List Char)) :
    Option (List Char) × List (List Char) :=
  let title := articleTitle topic subtopic
  let slug := normalizeId title
  if slug ∈ store then (none, store)
  else (some (str "site/content/" ++ slug ++ str "/index.md"), slug :: store)

/-! ## Orchestrator (`main`, main.py lines 230-263) -/

/-- The run environment: configuration values and the outcome every
external provider would produce for a given query. -/
structure Env where
  regions : List RegionOutcome
  related : RelatedOutcome
  articlesPerCycle : Nat
  minWords : Nat
  fetchSources : Bool
  gkey : Bool
  nytkey : Bool
  wiki : List Char → List Src
  guardian : List Char → List Src
  nyt : List Char → List Src
  fetchImages : Bool
  pexels : List Char → ProvOutcome
  unsplash : List Char → ProvOutcome
  allowWikimedia : Bool
  wikimedia : List Char → ProvOutcome

/-- The per-subtopic loop of `main`: aggregate sources (when enabled),
resolve an image (when enabled), publish, and collect non-`None` record
locations in order. -/
def mainLoop (env : Env) (seed : List Char) :
    List (List Char) → List (List Char) → List (List Char) →
    List (List Char) × List (List Char)
  | [], store, created => (created, store)
  | sub :: rest, store, created =>
    let srcs := if env.fetchSources then
        aggregate (env.wiki sub ++ (if env.gkey then env.guardian sub else [])
          ++ (if env.nytkey then env.nyt sub else []))
      else []
    let img := if env.fetchImages then
        pick_image (env.pexels sub) (env.unsplash sub) env.allowWikimedia (env.wikimedia sub)
      else none
    match make_article seed sub srcs img env.minWords store with
    | (none, store1) => mainLoop env seed rest store1 created
    | (some p, store1) => mainLoop env seed rest store1 (created ++ [p])

/-- `main()`: discover trends, abort on an empty result, otherwise expand
the first term into subtopics capped by `ARTICLES_PER_CYCLE` and run the
per-subtopic loop.  Returns the report (created locations) and the final
store. -/
def runMain (env : Env) (store : List (List Char)) :
    List (List Char) × List (List Char) :=
  match fetch_trending_terms env.regions with
  | [] => ([], store)
  | seed :: _ =>
    mainLoop env seed
      ((fetch_related_queries seed env.related).take env.articlesPerCycle) store []

/-! ## The equivalence relation of claim C6 -/

/-- Two texts differing only in letter case and punctuation style: safe
characters match up to `lowerChar`, and maximal unsafe (whitespace or
punctuation) runs may be replaced by arbitrary non-empty unsafe runs. -/
inductive StyleEquiv : List Char → List Char → Prop
  | nil : StyleEquiv [] []
  | safe (c d : Char) (s1 s2 : List Char) (hc : isSafe c = true) (hd : isSafe d = true)
      (hl : lowerChar c = lowerChar d) (h : StyleEquiv s1 s2) :
      StyleEquiv (c :: s1) (d :: s2)
  | sep (r1 r2 s1 s2 : List Char) (h1 : ∀ c ∈ r1, isSafe c = false)
      (h2 : ∀ c ∈ r2, isSafe c = false) (hn1 : r1 ≠ []) (hn2 : r2 ≠ [])
      (h : StyleEquiv s1 s2) : StyleEquiv (r1 ++ s1) (r2 ++ s2)

/-- Claim C6's relation: the inputs differ only by letter case, surrounding
whitespace, or punctuation style — each is some whitespace, then a core,
then some whitespace, with the cores `StyleEquiv`. -/
def CaseWsPunctEquiv (t1 t2 : List Char) : Prop :=
  ∃ w1 u1 w2 w3 u2 w4,
    t1 = w1 ++ u1 ++ w2 ∧ t2 = w3 ++ u2 ++ w4 ∧
    (∀ c ∈ w1, isWs c = true) ∧ (∀ c ∈ w2, isWs c = true) ∧
    (∀ c ∈ w3, isWs c = true) ∧ (∀ c ∈ w4, isWs c = true) ∧
    StyleEquiv u1 u2

/-! ## Character-level helper lemmas -/

/-- Lowercasing never moves a character into or out of the whitespace set. -/
theorem isWs_lowerChar (c : Char) : isWs (lowerChar c) = isWs c := by
  unfold lowerChar
  cases hf : lowerTable.find? (fun p => p.1 == c) with
  | none => rfl
  | some p =>
    have hmem := List.mem_of_find?_eq_some hf
    have hpred := List.find?_some hf
    simp only [beq_iff_eq] at hpred
    subst hpred
    simp only [lowerTable, List.mem_cons, List.not_mem_nil, or_false] at hmem
    rcases hmem with h|h|h|h|h|h|h|h|h|h|h|h|h|h|h|h|h|h|h|h|h|h|h|h|h|h <;>
      subst h <;> decide

/-- Whitespace characters are not in the slug-safe alphanumeric set. -/
theorem isWs_not_safe (c : Char) (h : isWs c = true) : isSafe c = false := by
  simp only [isWs, Bool.or_eq_true, beq_iff_eq] at h
  rcases h with ((((h|h)|h)|h)|h)|h <;> subst h <;> decide

/-- The head surviving a `dropWhile` fails the predicate. -/
theorem dropWhile_head_false {p : Char → Bool} :
    ∀ (l : List Char) (d : Char) (ds : List Char),
    l.dropWhile p = d :: ds → p d = false := by
  intro l
  induction l with
  | nil => intro d ds h; simp [List.dropWhile] at h
  | cons c cs ih =>
    intro d ds h
    by_cases hc : p c = true
    · rw [List.dropWhile_cons_of_pos hc] at h; exact ih _ _ h
    · rw [List.dropWhile_cons_of_neg hc] at h
      cases h
      simpa using hc

/-- Stripping trailing whitespace from a list ending in a non-whitespace
character changes nothing. -/
theorem strip_right_noop (x : List Char) (c : Char) (hc : isWs c = false) :
    (((x ++ [c]).reverse).dropWhile isWs).reverse = x ++ [c] := by
  rw [List.reverse_append]
  simp [List.dropWhile_cons, hc]

/-! ## Claim theorems -/

/-- C7: for every seed and subtopic, the published record's title is the
generic "`<seed>`: What you need to know" when the subtopic
case-insensitively equals the seed, and is the subtopic verbatim
otherwise. -/
theorem c7_title_derivation (topic subtopic : List Char) :
    (lowerL subtopic = lowerL topic →
      articleTitle topic subtopic = topic ++ str ": What you need to know") ∧
    (lowerL subtopic ≠ lowerL topic → articleTitle topic subtopic = subtopic) := by
  constructor <;> intro h <;> simp [articleTitle, h]

/-- C7 witness: the generic title at a case-insensitive match and the
verbatim title otherwise, at concrete inputs. -/
theorem c7_title_derivation_witness :
    articleTitle (str "Foo") (str "foo") = str "Foo: What you need to know" ∧
    articleTitle (str "Foo") (str "Foo news") = str "Foo news" :=
  ⟨(c7_title_derivation (str "Foo") (str "foo")).1 (by decide),
   (c7_title_derivation (str "Foo") (str "Foo news")).2 (by decide)⟩

/-- C4: image resolution is a strict ordered short-circuiting fallback:
the first provider with a usable result determines the value (later
providers do not matter), and when every provider fails, is unconfigured
or empty — or the last-resort provider is disabled — the result is absent;
no exception escapes (the function is total). -/
theorem c4_image_fallback :
    (∀ r un a wk, pick_image (ProvOutcome.ok r) un a wk = some r) ∧
    (∀ px r a wk, isOkProv px = false →
      pick_image px (ProvOutcome.ok r) a wk = some r) ∧
    (∀ px un r, isOkProv px = false → isOkProv un = false →
      pick_image px un true (ProvOutcome.ok r) = some r) ∧
    (∀ px un a wk, isOkProv px = false → isOkProv un = false →
      (a = false ∨ isOkProv wk = false) → pick_image px un a wk = none) := by
  refine ⟨fun r un a wk => rfl, fun px r a wk h => ?_, fun px un r h1 h2 => ?_,
    fun px un a wk h1 h2 h3 => ?_⟩
  · cases px <;> simp_all [pick_image, isOkProv]
  · cases px <;> cases un <;> simp_all [pick_image, isOkProv]
  · rcases h3 with h3 | h3 <;>
      cases px <;> cases un <;> cases wk <;> simp_all [pick_image, isOkProv]

/-- C4 witness: a middle provider's success is returned when the first
fails, and total failure yields absent, at concrete outcomes. -/
theorem c4_image_fallback_witness :
    pick_image ProvOutcome.ex ProvOutcome.empty true
        (ProvOutcome.ok ⟨str "u", str "c", none⟩) = some ⟨str "u", str "c", none⟩ ∧
    pick_image ProvOutcome.ex ProvOutcome.empty true ProvOutcome.unconfigured = none :=
  ⟨c4_image_fallback.2.2.1 ProvOutcome.ex ProvOutcome.empty ⟨str "u", str "c", none⟩ rfl rfl,
   c4_image_fallback.2.2.2 ProvOutcome.ex ProvOutcome.empty true ProvOutcome.unconfigured
     rfl rfl (Or.inr rfl)⟩

/-- C9: subtopic expansion never yields more than 8 entries — the success
path truncates to 8, the exception fallback has exactly 4, unavailability
yields none — so even a per-cycle cap above 8 processes at most 8
subtopics. -/
theorem c9_expansion_capped :
    (∀ term o, (fetch_related_queries term o).length ≤ 8) ∧
    (∀ term o cap, ((fetch_related_queries term o).take cap).length ≤ 8) ∧
    (∀ term, (fetch_related_queries term RelatedOutcome.ex).length = 4) := by
  have h1 : ∀ term o, (fetch_related_queries term o).length ≤ 8 := by
    intro term o
    cases o with
    | unavailable => simp [fetch_related_queries]
    | ex => simp [fetch_related_queries]
    | ok rising top =>
      simp only [fetch_related_queries, List.length_take]
      omega
  refine ⟨h1, fun term o cap => ?_, fun term => rfl⟩
  calc ((fetch_related_queries term o).take cap).length
      ≤ (fetch_related_queries term o).length := by
        rw [List.length_take]; omega
    _ ≤ 8 := h1 term o

/-- C8: an empty trend-discovery result makes the orchestrator return
early — empty report, untouched store, no subtopic expansion — and it is
the only aborting condition: with a non-empty discovery the run proceeds
through the whole per-subtopic loop. -/
theorem c8_empty_discovery_aborts (env : Env) (store : List (List Char)) :
    (fetch_trending_terms env.regions = [] → runMain env store = ([], store)) ∧
    (∀ seed rest, fetch_trending_terms env.regions = seed :: rest →
      runMain env store = mainLoop env seed
        ((fetch_related_queries seed env.related).take env.articlesPerCycle) store []) := by
  constructor
  · intro h; simp [runMain, h]
  · intro seed rest h; simp [runMain, h]

/-- C8 witness: a run whose trend discovery produces nothing returns an
empty report and leaves the (non-empty) store exactly as it was. -/
theorem c8_empty_discovery_aborts_witness :
    runMain
      ⟨[], RelatedOutcome.unavailable, 5, 900, true, false, false,
        fun _ => [], fun _ => [], fun _ => [], true,
        fun _ => ProvOutcome.unconfigured, fun _ => ProvOutcome.unconfigured,
        true, fun _ => ProvOutcome.unconfigured⟩
      [str "existing-record"] = ([], [str "existing-record"]) :=
  (c8_empty_discovery_aborts _ _).1 rfl

/-- C1: publication is idempotent.  If the identifier's location already
exists, `make_article` writes nothing and returns absent; the second of two
identical calls always returns absent and leaves the store unchanged; and
a fresh first call writes exactly one record and returns its location. -/
theorem c1_publish_idempotent (topic subtopic : List Char) (sources : List Src)
    (image : Option ImageResult) (minWords : Nat) (store : List (List Char)) :
    (normalizeId (articleTitle topic subtopic) ∈ store →
      make_article topic subtopic sources image minWords store = (none, store)) ∧
    (make_article topic subtopic sources image minWords
        (make_article topic subtopic sources image minWords store).2
      = (none, (make_article topic subtopic sources image minWords store).2)) ∧
    (normalizeId (articleTitle topic subtopic) ∉ store →
      (make_article topic subtopic sources image minWords store).2.length
          = store.length + 1 ∧
      (make_article topic subtopic sources image minWords store).1 ≠ none) := by
  by_cases h : normalizeId (articleTitle topic subtopic) ∈ store
  · refine ⟨fun _ => ?_, ?_, fun hn => absurd h hn⟩ <;>
      simp [make_article, h]
  · refine ⟨fun hmem => absurd hmem h, ?_, fun _ => ?_⟩ <;>
      simp [make_article, h]

/-- C1 witness: at concrete inputs, a fresh publish writes one record and
the immediate second publish returns absent leaving the store unchanged. -/
theorem c1_publish_idempotent_witness :
    normalizeId (articleTitle (str "Foo") (str "Foo news"))
        ∉ ([] : List (List Char)) ∧
    make_article (str "Foo") (str "Foo news") [] none 900
        (make_article (str "Foo") (str "Foo news") [] none 900 []).2
      = (none, (make_article (str "Foo") (str "Foo news") [] none 900 []).2) ∧
    (make_article (str "Foo") (str "Foo news") [] none 900 []).2.length = 0 + 1 :=
  ⟨by decide,
   (c1_publish_idempotent (str "Foo") (str "Foo news") [] none 900 []).2.1,
   ((c1_publish_idempotent (str "Foo") (str "Foo news") [] none 900 []).2.2
     (by decide)).1⟩

/-! ## Lemmas on the url dedup loop -/

/-- Every element surviving `dedupURL` carries a truthy url that was not
already seen. -/
theorem dedupURL_mem_urlKey :
    ∀ (srcs : List Src) (seen : List (List Char)) (s : Src),
    s ∈ dedupURL srcs seen → ∃ u, urlKey s = some u ∧ u ∉ seen := by
  intro srcs
  induction srcs with
  | nil => intro seen s h; simp [dedupURL] at h
  | cons x ss ih =>
    intro seen s h
    unfold dedupURL at h
    cases hx : urlKey x with
    | none => rw [hx] at h; exact ih seen s h
    | some v =>
      rw [hx] at h
      dsimp only at h
      by_cases hv : v ∈ seen
      · rw [if_pos hv] at h; exact ih seen s h
      · rw [if_neg hv] at h
        rcases List.mem_cons.mp h with rfl | h
        · exact ⟨v, hx, hv⟩
        · obtain ⟨u, hu, hnot⟩ := ih _ s h
          exact ⟨u, hu, fun hmem => hnot (List.mem_cons_of_mem _ hmem)⟩

/-- The url dedup loop keeps a subsequence of its input. -/
theorem dedupURL_sublist :
    ∀ (srcs : List Src) (seen : List (List Char)),
    (dedupURL srcs seen).Sublist srcs := by
  intro srcs
  induction srcs with
  | nil => intro seen; simp [dedupURL]
  | cons x ss ih =>
    intro seen
    unfold dedupURL
    cases hx : urlKey x with
    | none => exact (ih seen).cons x
    | some v =>
      dsimp only
      by_cases hv : v ∈ seen
      · rw [if_pos hv]; exact (ih seen).cons x
      · rw [if_neg hv]; exact (ih (v :: seen)).cons₂ x

/-- A url appears among the urls kept by `dedupURL` exactly when it is a
truthy url of the input not yet seen. -/
theorem dedupURL_mem_filterMap :
    ∀ (srcs : List Src) (seen : List (List Char)) (u : List Char),
    u ∈ (dedupURL srcs seen).filterMap urlKey ↔
      u ∈ srcs.filterMap urlKey ∧ u ∉ seen := by
  intro srcs
  induction srcs with
  | nil => intro seen u; simp [dedupURL]
  | cons x ss ih =>
    intro seen u
    unfold dedupURL
    cases hx : urlKey x with
    | none => rw [List.filterMap_cons_none hx]; exact ih seen u
    | some v =>
      dsimp only
      rw [List.filterMap_cons_some hx]
      by_cases hv : v ∈ seen
      · rw [if_pos hv, ih seen u]
        by_cases huv : u = v
        · subst huv; simp [hv]
        · simp [List.mem_cons, huv]
      · rw [if_neg hv, List.filterMap_cons_some hx]
        by_cases huv : u = v
        · subst huv; simp [hv]
        · simp only [List.mem_cons, huv, false_or, ih (v :: seen) u]

/-- The urls kept by `dedupURL` are pairwise distinct. -/
theorem dedupURL_nodup :
    ∀ (srcs : List Src) (seen : List (List Char)),
    ((dedupURL srcs seen).filterMap urlKey).Nodup := by
  intro srcs
  induction srcs with
  | nil => intro seen; simp [dedupURL]
  | cons x ss ih =>
    intro seen
    unfold dedupURL
    cases hx : urlKey x with
    | none => exact ih seen
    | some v =>
      dsimp only
      by_cases hv : v ∈ seen
      · rw [if_pos hv]; exact ih seen
      · rw [if_neg hv, List.filterMap_cons_some hx, List.nodup_cons]
        refine ⟨fun hmem => ?_, ih (v :: seen)⟩
        exact ((dedupURL_mem_filterMap ss (v :: seen) v).mp hmem).2 (List.mem_cons_self v seen)

/-- Each entry kept by `dedupURL` is the first entry of the input carrying
its url. -/
theorem dedupURL_first :
    ∀ (srcs : List Src) (seen : List (List Char)) (s : Src),
    s ∈ dedupURL srcs seen →
    srcs.find? (fun x => urlKey x == urlKey s) = some s := by
  intro srcs
  induction srcs with
  | nil => intro seen s h; simp [dedupURL] at h
  | cons x ss ih =>
    intro seen s h
    unfold dedupURL at h
    cases hx : urlKey x with
    | none =>
      rw [hx] at h
      obtain ⟨u, hu, -⟩ := dedupURL_mem_urlKey ss seen s h
      rw [List.find?_cons_of_neg _ (by simp [hx, hu])]
      exact ih seen s h
    | some v =>
      rw [hx] at h
      dsimp only at h
      by_cases hv : v ∈ seen
      · rw [if_pos hv] at h
        obtain ⟨u, hu, hnot⟩ := dedupURL_mem_urlKey ss seen s h
        have huv : u ≠ v := fun he => hnot (he ▸ hv)
        rw [List.find?_cons_of_neg _ (by simp [hx, hu]; exact fun he => huv he.symm)]
        exact ih seen s h
      · rw [if_neg hv] at h
        rcases List.mem_cons.mp h with rfl | h
        · rw [List.find?_cons_of_pos _ (by simp)]
        · obtain ⟨u, hu, hnot⟩ := dedupURL_mem_urlKey ss (v :: seen) s h
          have huv : u ≠ v := fun he => hnot (he ▸ List.mem_cons_self v seen)
          rw [List.find?_cons_of_neg _ (by simp [hx, hu]; exact fun he => huv he.symm)]
          exact ih (v :: seen) s h

/-- C10: every source in an aggregated list has a present, non-empty url;
contributions whose url is missing or empty are dropped even when they
carry a title. -/
theorem c10_sources_have_urls (srcs : List Src) (s : Src)
    (h : s ∈ aggregate srcs) : ∃ u, s.url = some u ∧ u ≠ [] := by
  have h2 : s ∈ dedupURL srcs [] := (List.take_sublist 5 _).subset h
  obtain ⟨u, hu, -⟩ := dedupURL_mem_urlKey srcs [] s h2
  unfold urlKey at hu
  cases hs : s.url with
  | none => rw [hs] at hu; cases hu
  | some v =>
    rw [hs] at hu
    dsimp only at hu
    by_cases hv : v = []
    · rw [if_pos hv] at hu; cases hu
    · exact ⟨v, rfl, hv⟩

/-- C10 witness: a titled but url-less contribution is dropped from the
aggregate, while the url-carrying one is kept with its non-empty url. -/
theorem c10_sources_have_urls_witness :
    (⟨some (str "Titled"), none⟩ : Src) ∉
        aggregate [⟨some (str "Titled"), none⟩, ⟨none, some (str "u")⟩] ∧
    (⟨some (str "T2"), some []⟩ : Src) ∉
        aggregate [⟨some (str "T2"), some []⟩, ⟨none, some (str "u")⟩] ∧
    (∃ u, (Src.url ⟨none, some (str "u")⟩) = some u ∧ u ≠ []) :=
  ⟨by decide, by decide,
   c10_sources_have_urls [⟨some (str "Titled"), none⟩, ⟨none, some (str "u")⟩]
     ⟨none, some (str "u")⟩ (by decide)⟩

/-- C3: aggregation over the concatenated provider contributions keeps each
distinct truthy url exactly once — the kept entries are a subsequence of
the input (first-occurrence order), each kept entry is the first input
entry with its url (exact, case-sensitive equality), the kept url set
equals the input url set — and the published result is that dedup truncated
to at most 5 entries. -/
theorem c3_aggregate_dedup (srcs : List Src) :
    aggregate srcs = (dedupURL srcs []).take 5 ∧
    (aggregate srcs).length ≤ 5 ∧
    (aggregate srcs).Sublist srcs ∧
    (∀ u, u ∈ (dedupURL srcs []).filterMap urlKey ↔ u ∈ srcs.filterMap urlKey) ∧
    ((dedupURL srcs []).filterMap urlKey).Nodup ∧
    (∀ s, s ∈ dedupURL srcs [] →
      srcs.find? (fun x => urlKey x == urlKey s) = some s) := by
  refine ⟨rfl, ?_, ?_, fun u => ?_, dedupURL_nodup srcs [], dedupURL_first srcs []⟩
  · rw [aggregate, List.length_take]; omega
  · exact (List.take_sublist 5 _).trans (dedupURL_sublist srcs [])
  · rw [dedupURL_mem_filterMap srcs [] u]; simp

/-- C3 witness: with case-variant and repeated urls, the aggregate keeps
each exact url once in first-occurrence order ("http://x" and "http://X"
are distinct keys), and a kept entry is the first with its url. -/
theorem c3_aggregate_dedup_witness :
    aggregate [⟨some (str "A"), some (str "http://x")⟩,
               ⟨none, some (str "http://X")⟩,
               ⟨none, some (str "http://x")⟩]
      = [⟨some (str "A"), some (str "http://x")⟩, ⟨none, some (str "http://X")⟩] ∧
    (⟨none, some (str "http://X")⟩ : Src) ∈
        dedupURL [⟨some (str "A"), some (str "http://x")⟩,
                  ⟨none, some (str "http://X")⟩,
                  ⟨none, some (str "http://x")⟩] [] ∧
    List.find? (fun x => urlKey x == urlKey ⟨none, some (str "http://X")⟩)
        [⟨some (str "A"), some (str "http://x")⟩,
         ⟨none, some (str "http://X")⟩,
         ⟨none, some (str "http://x")⟩]
      = some ⟨none, some (str "http://X")⟩ :=
  ⟨by decide, by decide,
   (c3_aggregate_dedup [⟨some (str "A"), some (str "http://x")⟩,
      ⟨none, some (str "http://X")⟩,
      ⟨none, some (str "http://x")⟩]).2.2.2.2.2
     ⟨none, some (str "http://X")⟩ (by decide)⟩

/-! ## Lemmas on trend discovery -/

/-- The gathered keyword list is exactly the verbatim flatten with each
term stripped. -/
theorem gatherKeywords_eq :
    ∀ rs : List RegionOutcome, gatherKeywords rs = (flattenOk rs).map pyStrip := by
  intro rs
  induction rs with
  | nil => rfl
  | cons r rs ih =>
    cases r with
    | ex => simpa [gatherKeywords, flattenOk] using ih
    | ok ts => simp [gatherKeywords, flattenOk, ih]

/-- The case-insensitive dedup loop keeps a subsequence of its input. -/
theorem dedupCI_sublist :
    ∀ (ks seen : List (List Char)), (dedupCI ks seen).Sublist ks := by
  intro ks
  induction ks with
  | nil => intro seen; simp [dedupCI]
  | cons k ks ih =>
    intro seen
    unfold dedupCI
    by_cases hk : lowerL k ∈ seen
    · rw [if_pos hk]; exact (ih seen).cons k
    · rw [if_neg hk]; exact (ih (lowerL k :: seen)).cons₂ k

/-- A lowercase key appears among the kept terms' keys exactly when it is a
key of the input not yet seen. -/
theorem dedupCI_mem_lower :
    ∀ (ks seen : List (List Char)) (u : List Char),
    u ∈ (dedupCI ks seen).map lowerL ↔ u ∈ ks.map lowerL ∧ u ∉ seen := by
  intro ks
  induction ks with
  | nil => intro seen u; simp [dedupCI]
  | cons k ks ih =>
    intro seen u
    unfold dedupCI
    by_cases hk : lowerL k ∈ seen
    · rw [if_pos hk, ih seen u]
      by_cases huk : u = lowerL k
      · subst huk; simp [hk]
      · simp [List.mem_cons, huk]
    · rw [if_neg hk]
      by_cases huk : u = lowerL k
      · subst huk; simp [hk]
      · simp only [List.map_cons, List.mem_cons, huk, false_or,
          ih (lowerL k :: seen) u]

/-- The lowercase keys of the kept terms are pairwise distinct. -/
theorem dedupCI_nodup :
    ∀ (ks seen : List (List Char)), ((dedupCI ks seen).map lowerL).Nodup := by
  intro ks
  induction ks with
  | nil => intro seen; simp [dedupCI]
  | cons k ks ih =>
    intro seen
    unfold dedupCI
    by_cases hk : lowerL k ∈ seen
    · rw [if_pos hk]; exact ih seen
    · rw [if_neg hk, List.map_cons, List.nodup_cons]
      refine ⟨fun hmem => ?_, ih (lowerL k :: seen)⟩
      exact ((dedupCI_mem_lower ks (lowerL k :: seen) (lowerL k)).mp hmem).2
        (List.mem_cons_self _ seen)

/-- C5 counterexample: trend discovery does not equal the claimed
flatten-dedup-truncate pipeline on verbatim terms — a term with leading
whitespace is stripped by the code, which the claim's pipeline does not
do. -/
theorem c5_discovery_counterexample :
    fetch_trending_terms [RegionOutcome.ok [str " Foo"]]
      ≠ discoverClaim [RegionOutcome.ok [str " Foo"]] := by decide

/-- C5 (amended): trend discovery strips each term, then flattens across
regions in region order, deduplicates case-insensitively keeping the
first occurrence with its original (stripped) casing, and truncates to at
most 20; on the spec's example ["Foo", "bar", "FOO"] it yields
["Foo", "bar"]. -/
theorem c5_discovery_dedup (rs : List RegionOutcome) :
    fetch_trending_terms rs = (dedupCI ((flattenOk rs).map pyStrip) []).take 20 ∧
    (fetch_trending_terms rs).length ≤ 20 ∧
    ((fetch_trending_terms rs).map lowerL).Nodup ∧
    (fetch_trending_terms rs).Sublist ((flattenOk rs).map pyStrip) ∧
    fetch_trending_terms [RegionOutcome.ok [str "Foo", str "bar", str "FOO"]]
      = [str "Foo", str "bar"] := by
  refine ⟨by rw [fetch_trending_terms, gatherKeywords_eq], ?_, ?_, ?_, by decide⟩
  · rw [fetch_trending_terms, List.length_take]; omega
  · have h := dedupCI_nodup (gatherKeywords rs) []
    have hsub : ((fetch_trending_terms rs).map lowerL).Sublist
        ((dedupCI (gatherKeywords rs) []).map lowerL) :=
      (List.take_sublist 20 _).map lowerL
    exact h.sublist hsub
  · rw [← gatherKeywords_eq]
    exact (List.take_sublist 20 _).trans (dedupCI_sublist _ [])

/-! ## Lemmas on subtopic expansion -/

/-- Stripping a text followed by a space-prefixed, non-whitespace-ended
suffix: all-whitespace texts leave just the suffix body, otherwise the
stripped text keeps the space and suffix. -/
theorem pyStrip_append_suffix (t u pre : List Char) (c0 cL : Char) (u2 : List Char)
    (hu0 : u = c0 :: u2) (hc0 : isWs c0 = false)
    (huL : u = pre ++ [cL]) (hcL : isWs cL = false) :
    pyStrip (t ++ (' ' :: u)) =
      if t.dropWhile isWs = [] then u
      else t.dropWhile isWs ++ (' ' :: u) := by
  unfold pyStrip
  by_cases hD : t.dropWhile isWs = []
  · have hE : (t.dropWhile isWs).isEmpty = true := by simp [hD]
    rw [List.dropWhile_append, if_pos hE, if_pos hD]
    rw [List.dropWhile_cons_of_pos (by decide : isWs ' ' = true)]
    rw [hu0, List.dropWhile_cons_of_neg (by simp [hc0])]
    rw [← hu0, huL]
    exact strip_right_noop pre cL hcL
  · have hE : ¬((t.dropWhile isWs).isEmpty = true) := by simp [hD]
    rw [List.dropWhile_append, if_neg hE, if_neg hD]
    have hsplit : t.dropWhile isWs ++ (' ' :: u)
        = (t.dropWhile isWs ++ (' ' :: pre)) ++ [cL] := by
      rw [huL]; simp
    rw [hsplit]
    exact strip_right_noop _ cL hcL

/-- A list with a non-whitespace head is never the lowercasing of an
all-whitespace text. -/
theorem ne_lowerL_of_allWs (t q : List Char) (c0 : Char) (v : List Char)
    (hq : q = c0 :: v) (hc0 : isWs c0 = false)
    (hws : ∀ c ∈ t, isWs c = true) : q ≠ lowerL t := by
  subst hq
  intro h
  cases t with
  | nil => simp [lowerL] at h
  | cons t0 ts =>
    rw [lowerL, List.map_cons] at h
    injection h with h1 h2
    have hwl : isWs (lowerChar t0) = true := by
      rw [isWs_lowerChar]; exact hws t0 (List.mem_cons_self _ _)
    rw [← h1, hc0] at hwl
    exact Bool.false_ne_true hwl

/-- The lowercasing of a text's whitespace-stripped head part extended by
anything non-empty never equals the lowercasing of the text itself. -/
theorem ne_lowerL_of_head (t : List Char) (d : Char) (ds : List Char)
    (hD : t.dropWhile isWs = d :: ds) (rest : List Char) (hrest : rest ≠ []) :
    lowerL ((d :: ds) ++ rest) ≠ lowerL t := by
  intro h
  have hd : isWs d = false := dropWhile_head_false t d ds hD
  have ht : t = t.takeWhile isWs ++ (d :: ds) := by
    conv_lhs => rw [← List.takeWhile_append_dropWhile isWs t]
    rw [hD]
  cases hW : t.takeWhile isWs with
  | nil =>
    rw [ht, hW, List.nil_append] at h
    have hlen := congrArg List.length h
    simp only [lowerL, List.length_map, List.length_append] at hlen
    exact hrest (List.eq_nil_of_length_eq_zero (by omega))
  | cons w ws =>
    have hwmem : w ∈ t.takeWhile isWs := by
      rw [hW]; exact List.mem_cons_self _ _
    have hw : isWs w = true := List.mem_takeWhile_imp hwmem
    rw [ht, hW] at h
    rw [lowerL, lowerL, List.cons_append, List.cons_append, List.map_cons,
      List.map_cons] at h
    injection h with h1 h2
    have hws2 : isWs (lowerChar d) = isWs (lowerChar w) := by rw [h1]
    rw [isWs_lowerChar, isWs_lowerChar, hd, hw] at hws2
    exact Bool.false_ne_true hws2

/-- Lowercasing is injective on a shared left factor. -/
theorem lowerL_append_ne (dd a b : List Char) (h : lowerL a ≠ lowerL b) :
    lowerL (dd ++ a) ≠ lowerL (dd ++ b) := by
  intro he
  unfold lowerL at he
  rw [List.map_append, List.map_append] at he
  exact h (List.append_cancel_left he)

/-- The dedup loop of subtopic expansion keeps four candidates whose
stripped lowercase keys are non-empty, pairwise distinct, and differ from
the seed key. -/
theorem dedupRQ_four (L q1 q2 q3 q4 : List Char)
    (n1 : lowerL (pyStrip q1) ≠ []) (n2 : lowerL (pyStrip q2) ≠ [])
    (n3 : lowerL (pyStrip q3) ≠ []) (n4 : lowerL (pyStrip q4) ≠ [])
    (t1 : lowerL (pyStrip q1) ≠ L) (t2 : lowerL (pyStrip q2) ≠ L)
    (t3 : lowerL (pyStrip q3) ≠ L) (t4 : lowerL (pyStrip q4) ≠ L)
    (d21 : lowerL (pyStrip q2) ≠ lowerL (pyStrip q1))
    (d31 : lowerL (pyStrip q3) ≠ lowerL (pyStrip q1))
    (d32 : lowerL (pyStrip q3) ≠ lowerL (pyStrip q2))
    (d41 : lowerL (pyStrip q4) ≠ lowerL (pyStrip q1))
    (d42 : lowerL (pyStrip q4) ≠ lowerL (pyStrip q2))
    (d43 : lowerL (pyStrip q4) ≠ lowerL (pyStrip q3)) :
    dedupRQ L [q1, q2, q3, q4] [] =
      [pyStrip q1, pyStrip q2, pyStrip q3, pyStrip q4] := by
  unfold dedupRQ
  rw [if_pos ⟨n1, by simp, t1⟩]
  unfold dedupRQ
  rw [if_pos ⟨n2, by simp [d21], t2⟩]
  unfold dedupRQ
  rw [if_pos ⟨n3, by simp [d31, d32], t3⟩]
  unfold dedupRQ
  rw [if_pos ⟨n4, by simp [d41, d42, d43], t4⟩]
  unfold dedupRQ
  rfl

/-- C2 counterexample: a provider exception is NOT treated identically to
an empty result — the exception path returns the overview/key facts/FAQs/
timeline angles, not the explained/pros and cons/vs alternatives/latest
news angles that the empty-result path produces (seed "X"). -/
theorem c2_exception_fallback_counterexample :
    fetch_related_queries (str "X") RelatedOutcome.ex
      ≠ [str "X explained", str "X pros and cons", str "X vs alternatives",
         str "X latest news"] := by decide

/-- C2 (amended): a provider exception is caught and never propagated but
yields its own fixed four generic angles ("`<seed>` overview", "`<seed>`
key facts", "`<seed>` FAQs", "`<seed>` timeline"), while an empty provider
result (no rising and no top entries) yields the four generic angles
"`<seed>` explained", "`<seed>` pros and cons", "`<seed>` vs alternatives",
"`<seed>` latest news" (each stripped of surrounding whitespace). -/
theorem c2_expansion_fallback :
    (∀ term, fetch_related_queries term RelatedOutcome.ex =
      [term ++ str " overview", term ++ str " key facts",
       term ++ str " FAQs", term ++ str " timeline"]) ∧
    (∀ term rising top, collectRQ rising ++ collectRQ top = [] →
      fetch_related_queries term (RelatedOutcome.ok rising top) =
        [pyStrip (term ++ str " explained"),
         pyStrip (term ++ str " pros and cons"),
         pyStrip (term ++ str " vs alternatives"),
         pyStrip (term ++ str " latest news")]) := by
  refine ⟨fun term => rfl, fun term rising top h => ?_⟩
  have hred : fetch_related_queries term (RelatedOutcome.ok rising top)
      = (dedupRQ (lowerL term)
          [term ++ str " explained", term ++ str " pros and cons",
           term ++ str " vs alternatives", term ++ str " latest news"] []).take 8 := by
    simp [fetch_related_queries, h]
  rw [hred]
  have e1 : pyStrip (term ++ str " explained")
      = if term.dropWhile isWs = [] then str "explained"
        else term.dropWhile isWs ++ (' ' :: str "explained") :=
    pyStrip_append_suffix term (str "explained") (str "explaine") 'e' 'd'
      (str "xplained") (by decide) (by decide) (by decide) (by decide)
  have e2 : pyStrip (term ++ str " pros and cons")
      = if term.dropWhile isWs = [] then str "pros and cons"
        else term.dropWhile isWs ++ (' ' :: str "pros and cons") :=
    pyStrip_append_suffix term (str "pros and cons") (str "pros and con") 'p' 's'
      (str "ros and cons") (by decide) (by decide) (by decide) (by decide)
  have e3 : pyStrip (term ++ str " vs alternatives")
      = if term.dropWhile isWs = [] then str "vs alternatives"
        else term.dropWhile isWs ++ (' ' :: str "vs alternatives") :=
    pyStrip_append_suffix term (str "vs alternatives") (str "vs alternative") 'v' 's'
      (str "s alternatives") (by decide) (by decide) (by decide) (by decide)
  have e4 : pyStrip (term ++ str " latest news")
      = if term.dropWhile isWs = [] then str "latest news"
        else term.dropWhile isWs ++ (' ' :: str "latest news") :=
    pyStrip_append_suffix term (str "latest news") (str "latest new") 'l' 's'
      (str "atest news") (by decide) (by decide) (by decide) (by decide)
  by_cases hD : term.dropWhile isWs = []
  · have hws : ∀ c ∈ term, isWs c = true := List.dropWhile_eq_nil_iff.mp hD
    have p1 : pyStrip (term ++ str " explained") = str "explained" := by
      rw [e1, if_pos hD]
    have p2 : pyStrip (term ++ str " pros and cons") = str "pros and cons" := by
      rw [e2, if_pos hD]
    have p3 : pyStrip (term ++ str " vs alternatives") = str "vs alternatives" := by
      rw [e3, if_pos hD]
    have p4 : pyStrip (term ++ str " latest news") = str "latest news" := by
      rw [e4, if_pos hD]
    rw [dedupRQ_four (lowerL term) _ _ _ _
      (by rw [p1]; decide) (by rw [p2]; decide)
      (by rw [p3]; decide) (by rw [p4]; decide)
      (by rw [p1]
          exact ne_lowerL_of_allWs term _ 'e' (str "xplained") (by decide) (by decide) hws)
      (by rw [p2]
          exact ne_lowerL_of_allWs term _ 'p' (str "ros and cons") (by decide) (by decide) hws)
      (by rw [p3]
          exact ne_lowerL_of_allWs term _ 'v' (str "s alternatives") (by decide) (by decide) hws)
      (by rw [p4]
          exact ne_lowerL_of_allWs term _ 'l' (str "atest news") (by decide) (by decide) hws)
      (by rw [p2, p1]; decide) (by rw [p3, p1]; decide) (by rw [p3, p2]; decide)
      (by rw [p4, p1]; decide) (by rw [p4, p2]; decide) (by rw [p4, p3]; decide)]
    rw [List.take_of_length_le (by simp)]
  · obtain ⟨d, ds, hDx⟩ : ∃ d ds, term.dropWhile isWs = d :: ds := by
      cases hx : term.dropWhile isWs with
      | nil => exact absurd hx hD
      | cons d ds => exact ⟨d, ds, rfl⟩
    have p1 : pyStrip (term ++ str " explained")
        = (d :: ds) ++ (' ' :: str "explained") := by
      rw [e1, if_neg hD, hDx]
    have p2 : pyStrip (term ++ str " pros and cons")
        = (d :: ds) ++ (' ' :: str "pros and cons") := by
      rw [e2, if_neg hD, hDx]
    have p3 : pyStrip (term ++ str " vs alternatives")
        = (d :: ds) ++ (' ' :: str "vs alternatives") := by
      rw [e3, if_neg hD, hDx]
    have p4 : pyStrip (term ++ str " latest news")
        = (d :: ds) ++ (' ' :: str "latest news") := by
      rw [e4, if_neg hD, hDx]
    rw [dedupRQ_four (lowerL term) _ _ _ _
      (by rw [p1]; simp [lowerL]) (by rw [p2]; simp [lowerL])
      (by rw [p3]; simp [lowerL]) (by rw [p4]; simp [lowerL])
      (by rw [p1]
          exact ne_lowerL_of_head term d ds hDx (' ' :: str "explained") (by simp))
      (by rw [p2]
          exact ne_lowerL_of_head term d ds hDx (' ' :: str "pros and cons") (by simp))
      (by rw [p3]
          exact ne_lowerL_of_head term d ds hDx (' ' :: str "vs alternatives") (by simp))
      (by rw [p4]
          exact ne_lowerL_of_head term d ds hDx (' ' :: str "latest news") (by simp))
      (by rw [p2, p1]; exact lowerL_append_ne (d :: ds) _ _ (by decide))
      (by rw [p3, p1]; exact lowerL_append_ne (d :: ds) _ _ (by decide))
      (by rw [p3, p2]; exact lowerL_append_ne (d :: ds) _ _ (by decide))
      (by rw [p4, p1]; exact lowerL_append_ne (d :: ds) _ _ (by decide))
      (by rw [p4, p2]; exact lowerL_append_ne (d :: ds) _ _ (by decide))
      (by rw [p4, p3]; exact lowerL_append_ne (d :: ds) _ _ (by decide))]
    rw [List.take_of_length_le (by simp)]

/-- C2 witness: for seed "X" and an empty provider result, expansion
returns the four stripped generic angles, which concretely are
"X explained", "X pros and cons", "X vs alternatives", "X latest news". -/
theorem c2_expansion_fallback_witness :
    fetch_related_queries (str "X") (RelatedOutcome.ok none none) =
      [pyStrip (str "X" ++ str " explained"),
       pyStrip (str "X" ++ str " pros and cons"),
       pyStrip (str "X" ++ str " vs alternatives"),
       pyStrip (str "X" ++ str " latest news")] ∧
    fetch_related_queries (str "X") (RelatedOutcome.ok none none) =
      [str "X explained", str "X pros and cons", str "X vs alternatives",
       str "X latest news"] :=
  ⟨c2_expansion_fallback.2 (str "X") none none rfl, by decide⟩

/-! ## Lemmas on the identifier normalizer -/

/-- Consuming a non-empty all-unsafe run: the pending token (if any) is
emitted and tokenization restarts with an empty accumulator. -/
theorem slugTok_unsafe_run :
    ∀ (r : List Char), r ≠ [] → (∀ c ∈ r, isSafe c = false) →
    ∀ (s acc : List Char),
    slugTok (r ++ s) acc = (if acc = [] then [] else [acc.reverse]) ++ slugTok s [] := by
  intro r
  induction r with
  | nil => intro h; exact absurd rfl h
  | cons c r2 ih =>
    intro _ hall s acc
    have hc : isSafe c = false := hall c (List.mem_cons_self _ _)
    cases r2 with
    | nil =>
      rw [List.cons_append, List.nil_append]
      conv_lhs => unfold slugTok
      rw [if_neg (by simp [hc])]
      by_cases ha : acc = []
      · rw [if_pos ha, if_pos ha, List.nil_append]
      · rw [if_neg ha, if_neg ha, List.singleton_append]
    | cons c2 r3 =>
      have hr2 : (c2 :: r3) ≠ [] := by simp
      have hall2 : ∀ x ∈ c2 :: r3, isSafe x = false := fun x hx =>
        hall x (List.mem_cons_of_mem _ hx)
      rw [List.cons_append]
      conv_lhs => unfold slugTok
      rw [if_neg (by simp [hc])]
      have hrec := ih hr2 hall2 s ([] : List Char)
      rw [if_pos rfl, List.nil_append] at hrec
      by_cases ha : acc = []
      · rw [if_pos ha, if_pos ha, List.nil_append, hrec]
      · rw [if_neg ha, if_neg ha, hrec, List.singleton_append]

/-- Leading unsafe characters do not affect tokenization started with an
empty accumulator. -/
theorem slugTok_unsafe_left (w : List Char) (hw : ∀ c ∈ w, isSafe c = false) :
    ∀ s : List Char, slugTok (w ++ s) [] = slugTok s [] := by
  intro s
  cases w with
  | nil => rw [List.nil_append]
  | cons c w2 =>
    rw [slugTok_unsafe_run (c :: w2) (by simp) hw s [], if_pos rfl, List.nil_append]

/-- Trailing unsafe characters do not affect tokenization. -/
theorem slugTok_unsafe_right (w : List Char) (hw : ∀ c ∈ w, isSafe c = false) :
    ∀ (u acc : List Char), slugTok (u ++ w) acc = slugTok u acc := by
  intro u
  induction u with
  | nil =>
    intro acc
    rw [List.nil_append]
    cases w with
    | nil => rfl
    | cons c w2 =>
      conv_lhs => rw [← List.append_nil (c :: w2)]
      rw [slugTok_unsafe_run (c :: w2) (by simp) hw [] acc]
      by_cases ha : acc = [] <;> simp [slugTok, ha]
  | cons c u2 ih =>
    intro acc
    rw [List.cons_append]
    conv_lhs => unfold slugTok
    conv_rhs => unfold slugTok
    by_cases hc : isSafe c = true
    · rw [if_pos hc, if_pos hc, ih]
    · rw [if_neg hc, if_neg hc]
      by_cases ha : acc = []
      · rw [if_pos ha, if_pos ha, ih]
      · rw [if_neg ha, if_neg ha, ih]

/-- Tokenization is invariant under the style-equivalence of claim C6. -/
theorem slugTok_styleEquiv {u1 u2 : List Char} (h : StyleEquiv u1 u2) :
    ∀ acc, slugTok u1 acc = slugTok u2 acc := by
  induction h with
  | nil => intro acc; rfl
  | safe c d s1 s2 hc hd hl h ih =>
    intro acc
    conv_lhs => unfold slugTok
    conv_rhs => unfold slugTok
    rw [if_pos hc, if_pos hd, hl, ih]
  | sep r1 r2 s1 s2 h1 h2 hn1 hn2 h ih =>
    intro acc
    rw [slugTok_unsafe_run r1 hn1 h1 s1 acc, slugTok_unsafe_run r2 hn2 h2 s2 acc, ih]

/-- C6: the identifier normalizer is a pure function whose output is at
most 80 characters, and two inputs under the length cap that differ only
by letter case, surrounding whitespace, or punctuation style normalize to
the same identifier. -/
theorem c6_normalize_stable :
    (∀ t, (normalizeId t).length ≤ 80) ∧
    (∀ t1 t2, t1.length ≤ 80 → t2.length ≤ 80 → CaseWsPunctEquiv t1 t2 →
      normalizeId t1 = normalizeId t2) := by
  constructor
  · intro t; rw [normalizeId, List.length_take]; omega
  · rintro t1 t2 - - ⟨w1, u1, w2, w3, u2, w4, rfl, rfl, hw1, hw2, hw3, hw4, hsty⟩
    have s1 : ∀ c ∈ w1, isSafe c = false := fun c hc => isWs_not_safe c (hw1 c hc)
    have s2 : ∀ c ∈ w2, isSafe c = false := fun c hc => isWs_not_safe c (hw2 c hc)
    have s3 : ∀ c ∈ w3, isSafe c = false := fun c hc => isWs_not_safe c (hw3 c hc)
    have s4 : ∀ c ∈ w4, isSafe c = false := fun c hc => isWs_not_safe c (hw4 c hc)
    have key : slugTok ((w1 ++ u1) ++ w2) [] = slugTok ((w3 ++ u2) ++ w4) [] := by
      rw [slugTok_unsafe_right w2 s2 (w1 ++ u1) [], slugTok_unsafe_left w1 s1 u1,
        slugTok_styleEquiv hsty [], ← slugTok_unsafe_left w3 s3 u2,
        ← slugTok_unsafe_right w4 s4 (w3 ++ u2) []]
    unfold normalizeId slugifyCore
    rw [key]

/-- C6 witness: "A b" and " a-B " (case flip, dash for space, surrounding
whitespace) normalize to the same identifier, applying the theorem with an
explicit equivalence derivation. -/
theorem c6_normalize_stable_witness :
    normalizeId (str "A b") = normalizeId (str " a-B ") :=
  c6_normalize_stable.2 (str "A b") (str " a-B ") (by decide) (by decide)
    ⟨[], str "A b", [], [' '], str "a-B", [' '], rfl, rfl,
     (by decide), (by decide), (by decide), (by decide),
     StyleEquiv.safe 'A' 'a' [' ', 'b'] ['-', 'B'] (by decide) (by decide) (by decide)
       (StyleEquiv.sep [' '] ['-'] ['b'] ['B'] (by decide) (by decide)
         (by decide) (by decide)
         (StyleEquiv.safe 'b' 'B' [] [] (by decide) (by decide) (by decide)
           StyleEquiv.nil))⟩
